import Mathlib

/-!
Verification of the MedTechONE retrieval engine (`MedTechONE_AI_Expert.py`).

This file gives a shallow embedding of the algorithmically relevant parts of
the source:

* `get_embedding` (embedding with zero-vector fallback, and the
  `lru_cache(maxsize=1000)` wrapper modelled as `lruCall` over an explicit
  cache state);
* `DocumentCache` (TTL cache with lazy expiry);
* `list_airtable_resources` (catalog filter + relevance sort);
* `retrieve_relevant_content_unified` (hybrid vector/keyword search,
  modelled as `searchRun`/`search` over an abstract `Store` of backends).

External backends (Supabase RPCs, `ilike` substring queries, the OpenAI
embedding endpoint) are modelled as functions returning `Except String _`:
`.error` stands for a raised exception.  Python floats are modelled as `ℚ`.
Each call issued to a backend is recorded in a `Call` log so that
call-count properties can be stated.  A Python `dict` is modelled as an
association list (insertion order is never observed by the code under
verification).  `list.sort(key=…, reverse=True)` — the stable Python sort in
descending key order — is modelled by `sortDesc`, a stable insertion sort,
whose stability is proved below rather than assumed.
-/

/-! ## Stable descending sort (model of Python `list.sort(key=…, reverse=True)`) -/

/-- Insert `x` into `l` in front of the first element whose key is `≤ key x`.
Elements with key strictly greater than `key x` are skipped, so among equal
keys an inserted element lands *after* the ones already present. -/
def insertDesc {α : Type} (key : α → ℚ) (x : α) : List α → List α
  | [] => [x]
  | y :: ys => if key y ≤ key x then x :: y :: ys else y :: insertDesc key x ys

/-- Stable sort in descending key order: exactly the observable behaviour of
Python `list.sort(key=…, reverse=True)` (ties keep their original order). -/
def sortDesc {α : Type} (key : α → ℚ) : List α → List α
  | [] => []
  | x :: xs => insertDesc key x (sortDesc key xs)

theorem insertDesc_perm {α : Type} (key : α → ℚ) (x : α) (l : List α) :
    List.Perm (insertDesc key x l) (x :: l) := by
  induction l with
  | nil => rfl
  | cons y ys ih =>
    by_cases h : key y ≤ key x
    · simp [insertDesc, h]
    · simp only [insertDesc, if_neg h]
      exact (ih.cons y).trans (List.Perm.swap x y ys)

theorem sortDesc_perm {α : Type} (key : α → ℚ) (l : List α) :
    List.Perm (sortDesc key l) l := by
  induction l with
  | nil => rfl
  | cons x xs ih =>
    exact (insertDesc_perm key x (sortDesc key xs)).trans (ih.cons x)

theorem mem_insertDesc {α : Type} {key : α → ℚ} {x a : α} {l : List α} :
    a ∈ insertDesc key x l ↔ a = x ∨ a ∈ l := by
  rw [(insertDesc_perm key x l).mem_iff, List.mem_cons]

theorem insertDesc_pairwise {α : Type} {key : α → ℚ} {x : α} {l : List α}
    (hl : l.Pairwise (fun a b => key b ≤ key a)) :
    (insertDesc key x l).Pairwise (fun a b => key b ≤ key a) := by
  induction l with
  | nil => simp [insertDesc]
  | cons y ys ih =>
    rcases List.pairwise_cons.1 hl with ⟨hy, hys⟩
    by_cases h : key y ≤ key x
    · rw [insertDesc, if_pos h]
      refine List.pairwise_cons.2 ⟨?_, hl⟩
      intro b hb
      rcases List.mem_cons.1 hb with rfl | hb
      · exact h
      · exact le_trans (hy b hb) h
    · rw [insertDesc, if_neg h]
      refine List.pairwise_cons.2 ⟨?_, ih hys⟩
      intro b hb
      rcases mem_insertDesc.1 hb with rfl | hb
      · exact le_of_lt (lt_of_not_le h)
      · exact hy b hb

theorem sortDesc_pairwise {α : Type} (key : α → ℚ) (l : List α) :
    (sortDesc key l).Pairwise (fun a b => key b ≤ key a) := by
  induction l with
  | nil => simp [sortDesc]
  | cons x xs ih => exact insertDesc_pairwise ih

theorem insertDesc_filter_eq {α : Type} {key : α → ℚ} {x : α} {s : ℚ}
    (l : List α) (hx : key x = s) :
    (insertDesc key x l).filter (fun a => decide (key a = s)) =
      x :: l.filter (fun a => decide (key a = s)) := by
  induction l with
  | nil => simp [insertDesc, hx]
  | cons y ys ih =>
    by_cases h : key y ≤ key x
    · rw [insertDesc, if_pos h, List.filter_cons, List.filter_cons]
      simp [hx]
    · have hy : ¬ key y = s := fun hs => h (le_of_eq (hs.trans hx.symm))
      rw [insertDesc, if_neg h, List.filter_cons, List.filter_cons]
      simp only [hy, decide_eq_true_eq, if_neg hy]
      exact ih

theorem insertDesc_filter_ne {α : Type} {key : α → ℚ} {x : α} {s : ℚ}
    (l : List α) (hx : ¬ key x = s) :
    (insertDesc key x l).filter (fun a => decide (key a = s)) =
      l.filter (fun a => decide (key a = s)) := by
  induction l with
  | nil => simp [insertDesc, hx]
  | cons y ys ih =>
    by_cases h : key y ≤ key x
    · rw [insertDesc, if_pos h, List.filter_cons]
      simp [hx]
    · rw [insertDesc, if_neg h, List.filter_cons, List.filter_cons]
      by_cases hy : key y = s
      · simp only [hy, decide_eq_true_eq, if_pos hy, ih]
      · simp only [decide_eq_true_eq, if_neg hy]
        exact ih

/-- Stability of `sortDesc`: for each key value `s`, the subsequence of
elements whose key is `s` is exactly the same (same elements, same order)
before and after sorting. -/
theorem sortDesc_filter_stable {α : Type} (key : α → ℚ) (s : ℚ) (l : List α) :
    (sortDesc key l).filter (fun a => decide (key a = s)) =
      l.filter (fun a => decide (key a = s)) := by
  induction l with
  | nil => rfl
  | cons x xs ih =>
    by_cases hx : key x = s
    · rw [sortDesc, insertDesc_filter_eq _ hx, ih, List.filter_cons]
      simp [hx]
    · rw [sortDesc, insertDesc_filter_ne _ hx, ih, List.filter_cons]
      simp [hx]

/-! ## Data model of the hybrid search engine

`retrieve_relevant_content_unified` consults four external operations.  Rows
are modelled after the columns the code actually reads.  The `ilike` keyword
queries select `id, title, content, associated_url, metadata, ecr_metadata`
but *not* `similarity`, so `doc.get(similarity, None)` yields `None` for
keyword hits; this is reflected by `KwRow` having no similarity field.
`ecr_metadata`/`metadata` values are opaque to the engine and modelled as
strings. -/

/-- A row of the `match_pdf_documents` vector RPC (the code reads
`id`, `title`, `content`, `associated_url`, `ecr_metadata`,
`similarity`; a null similarity is `none`). -/
structure RawPdf where
  id : Nat
  title : String
  content : String
  associated_url : String
  ecr_metadata : String
  similarity : Option ℚ
deriving DecidableEq, Repr

/-- A row of the keyword (`ilike`) queries over `pdf_documents`: the select
list has no `similarity` column. -/
structure KwRow where
  id : Nat
  title : String
  content : String
  associated_url : String
  ecr_metadata : String
deriving DecidableEq, Repr

/-- A keyword row seen as a pdf row: `doc.get(similarity, None)` is `None`
because the keyword select has no such column. -/
def KwRow.toRawPdf (k : KwRow) : RawPdf :=
  ⟨k.id, k.title, k.content, k.associated_url, k.ecr_metadata, none⟩

/-- A row of the `match_site_pages` vector RPC.  The code reads only
`title`, `content`, `url`, `similarity`, but the row (like any vector-search
row) carries an `id`, which the web branch never inspects. -/
structure WebRow where
  id : Nat
  title : String
  content : String
  url : String
  similarity : Option ℚ
deriving DecidableEq, Repr

/-- One dictionary of the `results` list built by the function (keys
`type`, `title`, `content`, `url`, and for pdf rows `ecr_metadata`;
`similarity` may be `None`). -/
structure SResult where
  rtype : String
  title : String
  content : String
  url : String
  ecr : Option String
  similarity : Option ℚ
deriving DecidableEq, Repr

/-- Entry with type pdf built from a pdf row. -/
def pdfToResult (d : RawPdf) : SResult :=
  ⟨"pdf", d.title, d.content, d.associated_url, some d.ecr_metadata, d.similarity⟩

/-- Entry with type web built from a web row. -/
def webToResult (w : WebRow) : SResult :=
  ⟨"web", w.title, w.content, w.url, none, w.similarity⟩

/-- Sort key of `results.sort(key=lambda x: x.get(similarity, 0) or 0,
reverse=True)`: a missing/null similarity counts as `0` (and `0.0 or 0`
is also `0`). -/
def effSim (r : SResult) : ℚ :=
  match r.similarity with
  | none => 0
  | some v => v

/-- One outbound backend call, as issued by the engine (substring calls
record the `ilike` pattern and the `limit`). -/
inductive Call where
  | embed
  | pdfVec
  | subContent (pattern : String) (limit : Nat)
  | subTitle (pattern : String) (limit : Nat)
  | webVec
deriving DecidableEq, Repr

/-- Is this call one of the two keyword (`substring_search`) call shapes? -/
def Call.isSubstring : Call → Bool
  | .subContent _ _ => true
  | .subTitle _ _ => true
  | _ => false

/-- The external backends consumed by the engine.  Each operation returns
`Except String _`; `.error` models a raised exception at that call.
Arguments mirror the call sites: `matchPdf embedding threshold count`,
`ilike… pattern limit`, `matchWeb embedding count`,
`embedBackend text dimensions`. -/
structure Store where
  embedBackend : String → Nat → Except String (List ℚ)
  matchPdf : List ℚ → ℚ → Nat → Except String (List RawPdf)
  ilikeContent : String → Nat → Except String (List KwRow)
  ilikeTitle : String → Nat → Except String (List KwRow)
  matchWeb : List ℚ → Nat → Except String (List WebRow)

/-- `get_embedding(text, openai_client)`: one request with
`dimensions=1536`; on any exception, `[0] * 1536`. -/
def get_embedding (backend : String → Nat → Except String (List ℚ)) (text : String) :
    List ℚ :=
  match backend text 1536 with
  | .ok v => v
  | .error _ => List.replicate 1536 0

/-- `keywords = [user_query.lower()] + user_query.lower().split() +
["class", "classification", "device", "medical"]`. -/
def keywordsOf (q : String) : List String :=
  let ql := q.toLower
  [ql] ++ (ql.split Char.isWhitespace).filter (fun t => t ≠ "") ++
    ["class", "classification", "device", "medical"]

/-- The dedup loop `for doc in …: if doc_id not in seen_ids: append; add`
over a batch of rows, threading `(seen_ids, hybrid_pdf_results)`. -/
def addUnique (seen : List Nat) (hyb : List RawPdf) : List RawPdf → List Nat × List RawPdf
  | [] => (seen, hyb)
  | d :: ds =>
    if d.id ∈ seen then addUnique seen hyb ds
    else addUnique (seen ++ [d.id]) (hyb ++ [d]) ds

/-- The keyword-fallback loop `for kw in keywords`: issue the content
`ilike` then the title `ilike` (each `limit(10)`, pattern `%kw%`),
then merge content hits, then title hits, deduplicating by id.  An
exception from either call aborts the loop (it propagates to the
function-level handler); calls already issued stay in the log. -/
def kwLoop (st : Store) : List String → List Nat → List RawPdf → List Call →
    Except String (List Nat × List RawPdf) × List Call
  | [], seen, hyb, log => (.ok (seen, hyb), log)
  | kw :: rest, seen, hyb, log =>
    let log := log ++ [Call.subContent ("%" ++ kw ++ "%") 10]
    match st.ilikeContent ("%" ++ kw ++ "%") 10 with
    | .error e => (.error e, log)
    | .ok rc =>
      let log := log ++ [Call.subTitle ("%" ++ kw ++ "%") 10]
      match st.ilikeTitle ("%" ++ kw ++ "%") 10 with
      | .error e => (.error e, log)
      | .ok rt =>
        let p1 := addUnique seen hyb (rc.map KwRow.toRawPdf)
        let p2 := addUnique p1.1 p1.2 (rt.map KwRow.toRawPdf)
        kwLoop st rest p2.1 p2.2 log

/-- The pdf stage: one `match_pdf_documents` RPC with `match_threshold: 0.0`
and `match_count: 10`, dedup of its rows, then — only if the working list is
still empty — the keyword-fallback loop.  Returns the
`hybrid_pdf_results` working list (or the propagating exception) plus the
call log of the stage. -/
def pdfStage (st : Store) (emb : List ℚ) (kws : List String) :
    Except String (List RawPdf) × List Call :=
  match st.matchPdf emb 0 10 with
  | .error e => (.error e, [Call.pdfVec])
  | .ok rows =>
    let p := addUnique [] [] rows
    if p.2.isEmpty then
      match kwLoop st kws p.1 p.2 [Call.pdfVec] with
      | (.error e, log) => (.error e, log)
      | (.ok pr, log) => (.ok pr.2, log)
    else (.ok p.2, [Call.pdfVec])

/-- `retrieve_relevant_content_unified` up to (and excluding) the final
sort: embedding, pdf stage, unconditional `match_site_pages` RPC
(`match_count: 10`), and the building of the `results` list (pdf entries
first, then web entries).  The second component is the full call log; an
`.error` first component models an exception reaching the function-level
`except` handler. -/
def searchRun (st : Store) (q : String) : Except String (List SResult) × List Call :=
  let emb := get_embedding st.embedBackend q
  let kws := keywordsOf q
  match pdfStage st emb kws with
  | (.error e, log) => (.error e, Call.embed :: log)
  | (.ok hyb, log) =>
    let log := Call.embed :: log ++ [Call.webVec]
    match st.matchWeb emb 10 with
    | .error e => (.error e, log)
    | .ok webRows => (.ok (hyb.map pdfToResult ++ webRows.map webToResult), log)

/-- The merged (pre-sort) `results` list; on an exception the function-level
handler yields the empty result. -/
def mergedResults (st : Store) (q : String) : List SResult :=
  match (searchRun st q).1 with
  | .ok rs => rs
  | .error _ => []

/-- The value returned by `retrieve_relevant_content_unified`, at the level
of the results sequence: the merged list sorted by
`x.get(similarity, 0) or 0` descending (the stable Python sort).  The
serialization step maps a non-empty list through `json.dumps` and the empty
list — also the one produced by the exception handler — to `""`. -/
def search (st : Store) (q : String) : List SResult :=
  sortDesc effSim (mergedResults st q)

/-- The substring (`ilike`) calls the keyword fallback issues for a keyword
list: content then title per keyword, pattern `%kw%`, limit 10. -/
def subCallsOf (kws : List String) : List Call :=
  kws.flatMap (fun k => [Call.subContent ("%" ++ k ++ "%") 10, Call.subTitle ("%" ++ k ++ "%") 10])

/-! ## Lemmas about the dedup fold and the keyword loop -/

theorem addUnique_append (ds : List RawPdf) :
    ∀ seen hyb, ∃ t, (addUnique seen hyb ds).2 = hyb ++ t := by
  induction ds with
  | nil => intro seen hyb; exact ⟨[], by simp [addUnique]⟩
  | cons d ds ih =>
    intro seen hyb
    by_cases h : d.id ∈ seen
    · simpa [addUnique, h] using ih seen hyb
    · rcases ih (seen ++ [d.id]) (hyb ++ [d]) with ⟨t, ht⟩
      exact ⟨d :: t, by simp [addUnique, h, ht]⟩

theorem subCallsOf_length (kws : List String) :
    (subCallsOf kws).length = 2 * kws.length := by
  induction kws with
  | nil => rfl
  | cons k ks ih => simp [subCallsOf, List.flatMap_cons] at *; omega

theorem subCallsOf_filter (kws : List String) :
    (subCallsOf kws).filter Call.isSubstring = subCallsOf kws := by
  induction kws with
  | nil => rfl
  | cons k ks ih =>
    simp only [subCallsOf, List.flatMap_cons] at *
    simp [List.filter_append, ih, Call.isSubstring]

theorem kwLoop_ok (st : Store) (kws : List String)
    (h : ∀ k ∈ kws, (∃ v, st.ilikeContent ("%" ++ k ++ "%") 10 = .ok v) ∧
      (∃ v, st.ilikeTitle ("%" ++ k ++ "%") 10 = .ok v)) :
    ∀ seen hyb log, ∃ pr, kwLoop st kws seen hyb log = (.ok pr, log ++ subCallsOf kws) := by
  induction kws with
  | nil => intro seen hyb log; exact ⟨(seen, hyb), by simp [kwLoop, subCallsOf]⟩
  | cons k ks ih =>
    intro seen hyb log
    rcases h k (by simp) with ⟨⟨vc, hvc⟩, ⟨vt, hvt⟩⟩
    have hks := fun k hk => h k (List.mem_cons_of_mem _ hk)
    rcases ih hks
        (addUnique (addUnique seen hyb (vc.map KwRow.toRawPdf)).1
          (addUnique seen hyb (vc.map KwRow.toRawPdf)).2 (vt.map KwRow.toRawPdf)).1
        (addUnique (addUnique seen hyb (vc.map KwRow.toRawPdf)).1
          (addUnique seen hyb (vc.map KwRow.toRawPdf)).2 (vt.map KwRow.toRawPdf)).2
        (log ++ [Call.subContent ("%" ++ k ++ "%") 10] ++ [Call.subTitle ("%" ++ k ++ "%") 10])
      with ⟨pr, hpr⟩
    refine ⟨pr, ?_⟩
    simp only [kwLoop, hvc, hvt]
    rw [hpr]
    simp [subCallsOf, List.flatMap_cons]

theorem kwLoop_allEmpty (st : Store) (kws : List String)
    (h : ∀ k ∈ kws, st.ilikeContent ("%" ++ k ++ "%") 10 = .ok [] ∧
      st.ilikeTitle ("%" ++ k ++ "%") 10 = .ok []) :
    ∀ seen hyb log, kwLoop st kws seen hyb log = (.ok (seen, hyb), log ++ subCallsOf kws) := by
  induction kws with
  | nil => intro seen hyb log; simp [kwLoop, subCallsOf]
  | cons k ks ih =>
    intro seen hyb log
    rcases h k (by simp) with ⟨hvc, hvt⟩
    have hks := fun k hk => h k (List.mem_cons_of_mem _ hk)
    simp only [kwLoop, hvc, hvt, List.map_nil, addUnique]
    rw [ih hks]
    simp [subCallsOf, List.flatMap_cons]

/-- Invariant of the dedup loop: the working list contains each id at most
once, and every id in it is registered in `seen_ids`. -/
def SeenInv (seen : List Nat) (hyb : List RawPdf) : Prop :=
  (hyb.map RawPdf.id).Nodup ∧ ∀ d ∈ hyb, d.id ∈ seen

theorem addUnique_inv (ds : List RawPdf) :
    ∀ seen hyb, SeenInv seen hyb →
      SeenInv (addUnique seen hyb ds).1 (addUnique seen hyb ds).2 := by
  induction ds with
  | nil => intro seen hyb h; simpa [addUnique] using h
  | cons d ds ih =>
    intro seen hyb h
    by_cases hd : d.id ∈ seen
    · simpa [addUnique, hd] using ih seen hyb h
    · simp only [addUnique, if_neg hd]
      refine ih _ _ ⟨?_, ?_⟩
      · simp only [List.map_append, List.map_cons, List.map_nil]
        rw [List.nodup_append]
        refine ⟨h.1, List.nodup_singleton _, ?_⟩
        intro a ha hb
        rcases List.mem_singleton.1 hb with rfl
        rcases List.mem_map.1 ha with ⟨x, hx, hxa⟩
        exact hd (hxa ▸ h.2 x hx)
      · intro x hx
        rcases List.mem_append.1 hx with hx | hx
        · exact List.mem_append.2 (Or.inl (h.2 x hx))
        · rcases List.mem_singleton.1 hx with rfl
          exact List.mem_append.2 (Or.inr (by simp))

theorem kwLoop_inv (st : Store) (kws : List String) :
    ∀ seen hyb log s2 h2 log2, SeenInv seen hyb →
      kwLoop st kws seen hyb log = (.ok (s2, h2), log2) → SeenInv s2 h2 := by
  induction kws with
  | nil =>
    intro seen hyb log s2 h2 log2 hinv heq
    simp only [kwLoop, Prod.mk.injEq, Except.ok.injEq] at heq
    rcases heq with ⟨⟨rfl, rfl⟩, rfl⟩
    exact hinv
  | cons k ks ih =>
    intro seen hyb log s2 h2 log2 hinv heq
    simp only [kwLoop] at heq
    rcases hc : st.ilikeContent ("%" ++ k ++ "%") 10 with e | vc
    · rw [hc] at heq; simp at heq
    · rw [hc] at heq
      rcases ht : st.ilikeTitle ("%" ++ k ++ "%") 10 with e | vt
      · rw [ht] at heq; simp at heq
      · rw [ht] at heq
        refine ih _ _ _ _ _ _ ?_ heq
        exact addUnique_inv _ _ _ (addUnique_inv _ _ _ hinv)

theorem addUnique_cons_nil (d : RawPdf) (ds : List RawPdf) :
    ∃ t, (addUnique [] [] (d :: ds)).2 = d :: t := by
  have h : (addUnique [] [] (d :: ds)) = addUnique [d.id] [d] ds := by
    simp [addUnique]
  rcases addUnique_append ds [d.id] [d] with ⟨t, ht⟩
  exact ⟨t, by rw [h, ht]; rfl⟩

/-- The full call log of a run: the embedding call, the pdf stage calls,
then — unless the pdf stage raised — the web vector call. -/
theorem searchRun_log (st : Store) (q : String) :
    (searchRun st q).2 =
      Call.embed :: (pdfStage st (get_embedding st.embedBackend q) (keywordsOf q)).2 ++
        (match (pdfStage st (get_embedding st.embedBackend q) (keywordsOf q)).1 with
          | .ok _ => [Call.webVec]
          | .error _ => []) := by
  simp only [searchRun]
  rcases hps : pdfStage st (get_embedding st.embedBackend q) (keywordsOf q) with ⟨r, log⟩
  cases r with
  | error e => simp
  | ok hyb =>
    rcases hw : st.matchWeb (get_embedding st.embedBackend q) 10 with e | rows <;> simp [hw]

theorem pdfStage_error (st : Store) (emb : List ℚ) (kws : List String) (e : String)
    (h : st.matchPdf emb 0 10 = .error e) :
    pdfStage st emb kws = (.error e, [Call.pdfVec]) := by
  simp [pdfStage, h]

theorem pdfStage_nonempty (st : Store) (emb : List ℚ) (kws : List String)
    (d : RawPdf) (rows : List RawPdf)
    (h : st.matchPdf emb 0 10 = .ok (d :: rows)) :
    ∃ hyb, pdfStage st emb kws = (.ok hyb, [Call.pdfVec]) := by
  rcases addUnique_cons_nil d rows with ⟨t, ht⟩
  have hne : (addUnique [] [] (d :: rows)).2.isEmpty = false := by
    rw [ht]; rfl
  refine ⟨(addUnique [] [] (d :: rows)).2, ?_⟩
  simp [pdfStage, h, hne]

theorem pdfStage_fallback (st : Store) (emb : List ℚ) (kws : List String)
    (h : st.matchPdf emb 0 10 = .ok [])
    (hsub : ∀ k ∈ kws, (∃ v, st.ilikeContent ("%" ++ k ++ "%") 10 = .ok v) ∧
      (∃ v, st.ilikeTitle ("%" ++ k ++ "%") 10 = .ok v)) :
    ∃ hyb, pdfStage st emb kws = (.ok hyb, [Call.pdfVec] ++ subCallsOf kws) := by
  rcases kwLoop_ok st kws hsub [] [] [Call.pdfVec] with ⟨pr, hpr⟩
  refine ⟨pr.2, ?_⟩
  simp [pdfStage, h, addUnique, hpr]

/-! ## Claim theorems -/

/-- C1: in `HybridSearchEngine.search`, if the pdf vector stage returns at
least one row, zero substring (`ilike`) calls are issued; if it returns zero
rows (and the substring backends answer, as in the mock-count scenario
of the spec), exactly the `2 × |keywords|` substring calls `content` + `title`
per keyword (pattern `%kw%`, limit 10) are issued, where the keyword
list is the lowercased query, its whitespace tokens, then
`"class", "classification", "device", "medical"`. -/
theorem search_substring_call_discipline (st : Store) (q : String)
    (hsub : st.matchPdf (get_embedding st.embedBackend q) 0 10 = .ok [] →
      ∀ k, (∃ v, st.ilikeContent ("%" ++ k ++ "%") 10 = .ok v) ∧
        (∃ v, st.ilikeTitle ("%" ++ k ++ "%") 10 = .ok v)) :
    (searchRun st q).2.filter Call.isSubstring =
      (match st.matchPdf (get_embedding st.embedBackend q) 0 10 with
        | .ok [] => subCallsOf (keywordsOf q)
        | .ok (_ :: _) => []
        | .error _ => []) ∧
    ((searchRun st q).2.filter Call.isSubstring).length =
      (match st.matchPdf (get_embedding st.embedBackend q) 0 10 with
        | .ok [] => 2 * (keywordsOf q).length
        | .ok (_ :: _) => 0
        | .error _ => 0) := by
  have hlog := searchRun_log st q
  rcases hm : st.matchPdf (get_embedding st.embedBackend q) 0 10 with e | _ | ⟨d, rows⟩
  · rw [pdfStage_error st _ _ e hm] at hlog
    simp only [hm] at *
    constructor
    · rw [hlog]; rfl
    · rw [hlog]; rfl
  · rcases pdfStage_fallback st (get_embedding st.embedBackend q) (keywordsOf q) hm
        (fun k _ => hsub hm k) with ⟨hyb, hps⟩
    rw [hps] at hlog
    simp only [hm] at *
    rw [hlog]
    have hfil : (Call.embed :: ([Call.pdfVec] ++ subCallsOf (keywordsOf q)) ++
        [Call.webVec]).filter Call.isSubstring = subCallsOf (keywordsOf q) := by
      simp [List.filter_append, subCallsOf_filter, Call.isSubstring]
    rw [hfil]
    exact ⟨rfl, subCallsOf_length (keywordsOf q)⟩
  · rcases pdfStage_nonempty st (get_embedding st.embedBackend q) (keywordsOf q) d rows hm
      with ⟨hyb, hps⟩
    rw [hps] at hlog
    simp only [hm] at *
    constructor
    · rw [hlog]; rfl
    · rw [hlog]; rfl

/-- Store used to witness `search_substring_call_discipline`: every backend
answers, the pdf vector stage answers with zero rows, so the keyword
fallback runs in full. -/
def stEmptyOk : Store :=
  ⟨fun _ _ => .ok [], fun _ _ _ => .ok [], fun _ _ => .ok [], fun _ _ => .ok [],
    fun _ _ => .ok []⟩

theorem search_substring_call_discipline_applied :
    (searchRun stEmptyOk "device class").2.filter Call.isSubstring =
      subCallsOf (keywordsOf "device class") ∧
    ((searchRun stEmptyOk "device class").2.filter Call.isSubstring).length =
      2 * (keywordsOf "device class").length :=
  search_substring_call_discipline stEmptyOk "device class"
    (fun _ _ => ⟨⟨[], rfl⟩, ⟨[], rfl⟩⟩)

/-- Store with a failing pdf store: the pdf vector RPC raises while the web
store is healthy and holds a row.  Used to refute stage-local failure
containment. -/
def stPdfDown : Store :=
  ⟨fun _ _ => .ok [], fun _ _ _ => .error "pdf store down", fun _ _ => .ok [],
    fun _ _ => .ok [],
    fun _ _ => .ok [⟨7, "Web hit", "web content", "http", some (1/2)⟩]⟩

/-- C2 counterexample: with the pdf vector RPC raising and the web store
returning a row, the whole call returns the empty result and the web vector
call is never even issued — the exception is caught at the function
boundary, not at the stage boundary, so the web stage neither runs nor
contributes. -/
theorem search_pdf_failure_blocks_web_stage :
    search stPdfDown "medical" = [] ∧ Call.webVec ∉ (searchRun stPdfDown "medical").2 := by
  constructor
  · rfl
  · decide

/-- C2 amended: an exception from an external store call is caught only by
the function-level handler: when the pdf vector call raises, the keyword and
web stages never run (no web vector call is issued) and `search` returns the
empty result. -/
theorem search_store_failure_aborts_whole_call (st : Store) (q : String) (e : String)
    (hpdf : st.matchPdf (get_embedding st.embedBackend q) 0 10 = .error e) :
    search st q = [] ∧ Call.webVec ∉ (searchRun st q).2 := by
  have hps := pdfStage_error st (get_embedding st.embedBackend q) (keywordsOf q) e hpdf
  constructor
  · simp [search, mergedResults, searchRun, hps, sortDesc]
  · have hlog := searchRun_log st q
    rw [hps] at hlog
    simp only [List.append_nil] at hlog
    rw [hlog]
    decide

theorem search_store_failure_aborts_whole_call_applied :
    search stPdfDown "q" = [] ∧ Call.webVec ∉ (searchRun stPdfDown "q").2 :=
  search_store_failure_aborts_whole_call stPdfDown "q" "pdf store down" rfl

/-- C3: for every behaviour of the backends `search` returns normally (it is
a total function into result lists, the function-level handler mapping any
escaped exception to the empty return), and a backend failure is
indistinguishable in the return value from a legitimately match-free query:
both produce the same empty result. -/
theorem search_never_raises_and_empty_indistinguishable
    (st st2 : Store) (q q2 : String) (e : String)
    (hfail : (searchRun st q).1 = .error e)
    (hpdf : st2.matchPdf (get_embedding st2.embedBackend q2) 0 10 = .ok [])
    (hsub : ∀ k, st2.ilikeContent ("%" ++ k ++ "%") 10 = .ok [] ∧
      st2.ilikeTitle ("%" ++ k ++ "%") 10 = .ok [])
    (hweb : st2.matchWeb (get_embedding st2.embedBackend q2) 10 = .ok []) :
    search st q = [] ∧ search st2 q2 = [] ∧ search st q = search st2 q2 := by
  have h1 : search st q = [] := by
    simp [search, mergedResults, hfail, sortDesc]
  have h2 : search st2 q2 = [] := by
    have hkw := kwLoop_allEmpty st2 (keywordsOf q2) (fun k _ => hsub k) [] [] [Call.pdfVec]
    have hps : pdfStage st2 (get_embedding st2.embedBackend q2) (keywordsOf q2) =
        (.ok [], [Call.pdfVec] ++ subCallsOf (keywordsOf q2)) := by
      simp [pdfStage, hpdf, addUnique, hkw]
    simp [search, mergedResults, searchRun, hps, hweb, sortDesc]
  exact ⟨h1, h2, h1.trans h2.symm⟩

theorem search_never_raises_and_empty_indistinguishable_applied :
    search stPdfDown "service down" = [] ∧ search stEmptyOk "no matches" = [] ∧
      search stPdfDown "service down" = search stEmptyOk "no matches" :=
  search_never_raises_and_empty_indistinguishable stPdfDown stEmptyOk
    "service down" "no matches" "pdf store down" rfl rfl (fun _ => ⟨rfl, rfl⟩) rfl

/-- Concrete ranking example of the spec: a pdf vector hit at 0.9. -/
def rankedPdfVec : SResult := ⟨"pdf", "pdf vector hit", "c1", "u1", some "m1", some (9/10)⟩

/-- Concrete ranking example of the spec: a pdf keyword hit without a
similarity value. -/
def rankedPdfKw : SResult := ⟨"pdf", "pdf keyword hit", "c2", "u2", some "m2", none⟩

/-- Concrete ranking example of the spec: a web vector hit at 0.95. -/
def rankedWeb : SResult := ⟨"web", "web hit", "c3", "u3", none, some (19/20)⟩

/-- C4: the returned sequence is sorted descending by similarity with a
missing similarity ranked as 0 (it stays present: the output is a
permutation of the merged list); on the three concrete passages of the spec
(0.9 pdf, missing pdf-keyword, 0.95 web, in merge order) the ranking step
yields [0.95-web, 0.9-pdf, 0-pdf-keyword]. -/
theorem search_sorted_desc_by_similarity (st : Store) (q : String) :
    (search st q).Pairwise (fun a b => effSim b ≤ effSim a) ∧
    List.Perm (search st q) (mergedResults st q) ∧
    sortDesc effSim [rankedPdfVec, rankedPdfKw, rankedWeb] =
      [rankedWeb, rankedPdfVec, rankedPdfKw] :=
  ⟨sortDesc_pairwise effSim (mergedResults st q),
    sortDesc_perm effSim (mergedResults st q), by
      norm_num [sortDesc, insertDesc, effSim, rankedPdfVec, rankedPdfKw, rankedWeb]⟩

/-- C10: the final similarity sort is stable — for every backend behaviour,
query and similarity level `s`, the subsequence of returned passages whose
effective similarity is `s` is exactly their pre-sort merge-order
subsequence (pdf-stage entries, vector order then keyword order, followed by
web-stage entries). -/
theorem search_sort_is_stable (st : Store) (q : String) (s : ℚ) :
    (search st q).filter (fun r => decide (effSim r = s)) =
      (mergedResults st q).filter (fun r => decide (effSim r = s)) :=
  sortDesc_filter_stable effSim s (mergedResults st q)

/-- Store in which the same passage id (1) is returned both by the pdf
vector RPC and by the web vector RPC. -/
def stSharedId : Store :=
  ⟨fun _ _ => .ok [],
    fun _ _ _ => .ok [⟨1, "Shared passage", "same text", "u", "m", some 1⟩],
    fun _ _ => .ok [], fun _ _ => .ok [],
    fun _ _ => .ok [⟨1, "Shared passage", "same text", "u", some 1⟩]⟩

/-- C5 counterexample: every row any backend returns carries id 1, yet the
returned sequence has two entries — one from the pdf row and one from the
web row with that same id.  Web results are never deduplicated against pdf
results (or against each other), so an id returned by both stores appears
twice, refuting store-independent uniqueness by id. -/
theorem search_cross_store_duplicate_kept :
    search stSharedId "device" =
      [⟨"pdf", "Shared passage", "same text", "u", some "m", some 1⟩,
        ⟨"web", "Shared passage", "same text", "u", none, some 1⟩] ∧
    (search stSharedId "device").length = 2 := by
  constructor
  · decide
  · decide

/-- C5 amended: deduplication by id happens only within the pdf stage —
the vector hits and the keyword-fallback hits share one `seen_ids` set, so
each id occurs at most once in `hybrid_pdf_results` (in particular an id
returned by both the vector search and the keyword fallback appears exactly
once there); web-store rows are appended afterwards without any
deduplication. -/
theorem pdf_stage_ids_nodup (st : Store) (emb : List ℚ) (kws : List String)
    (hyb : List RawPdf) (h : (pdfStage st emb kws).1 = .ok hyb) :
    (hyb.map RawPdf.id).Nodup := by
  rcases hm : st.matchPdf emb 0 10 with e | rows
  · rw [pdfStage_error st emb kws e hm] at h
    simp at h
  · have hinv : SeenInv (addUnique [] [] rows).1 (addUnique [] [] rows).2 :=
      addUnique_inv rows [] [] ⟨List.nodup_nil, by simp⟩
    simp only [pdfStage, hm] at h
    by_cases he : (addUnique [] [] rows).2.isEmpty
    · rw [if_pos he] at h
      rcases hk : kwLoop st kws (addUnique [] [] rows).1 (addUnique [] [] rows).2
          [Call.pdfVec] with ⟨r, log⟩
      rw [hk] at h
      cases r with
      | error e => simp at h
      | ok pr =>
        simp only [Except.ok.injEq] at h
        subst h
        have : SeenInv pr.1 pr.2 :=
          kwLoop_inv st kws (addUnique [] [] rows).1 (addUnique [] [] rows).2
            [Call.pdfVec] pr.1 pr.2 log hinv (by rw [hk])
        exact this.1
    · rw [if_neg he] at h
      simp only [Except.ok.injEq] at h
      subst h
      exact hinv.1

theorem pdf_stage_ids_nodup_applied :
    (([⟨1, "Shared passage", "same text", "u", "m", some 1⟩] : List RawPdf).map
      RawPdf.id).Nodup :=
  pdf_stage_ids_nodup stSharedId [] [] _ rfl

/-- C6: provided the embedding endpoint honours its `dimensions=1536`
request parameter on success (the API contract the code relies on),
`get_embedding` returns a vector of exactly 1536 entries for every text,
and when the backend raises it propagates nothing and returns the
1536-entry zero vector. -/
theorem get_embedding_dimension (backend : String → Nat → Except String (List ℚ))
    (text : String)
    (hdim : ∀ v, backend text 1536 = .ok v → v.length = 1536) :
    (get_embedding backend text).length = 1536 ∧
    (∀ e, backend text 1536 = .error e →
      get_embedding backend text = List.replicate 1536 0) := by
  constructor
  · rcases h : backend text 1536 with e | v
    · simp only [get_embedding, h, List.length_replicate]
    · simpa only [get_embedding, h] using hdim v h
  · intro e he
    simp only [get_embedding, he]

/-- An embedding backend that always raises. -/
def embedDown : String → Nat → Except String (List ℚ) := fun _ _ => .error "backend down"

theorem get_embedding_dimension_applied :
    (get_embedding embedDown "medical device").length = 1536 ∧
    get_embedding embedDown "medical device" = List.replicate 1536 0 := by
  have h := get_embedding_dimension embedDown "medical device" (fun v hv => by cases hv)
  exact ⟨h.1, h.2 "backend down" rfl⟩

/-! ## The `lru_cache(maxsize=EMBEDDING_CACHE_SIZE)` wrapper on `get_embedding`

`functools.lru_cache` keys on the exact argument tuple `(text, openai_client)`
(the client handle is modelled by a `Nat` identity).  `lruCall f c k` is one
call through the wrapper around the underlying function `f`: on a hit it
returns the cached value, refreshes the recency of the entry and makes no
underlying call; on a miss it calls `f` once, inserts the result as most
recent and, if the cache exceeds its capacity, evicts the least recently
used entry.  The third component counts underlying (outbound backend)
calls made by this invocation. -/

def EMBEDDING_CACHE_SIZE : Nat := 1000

/-- The memoization store: entries most-recently-used first. -/
structure EmbedCache where
  entries : List ((String × Nat) × List ℚ)
deriving DecidableEq, Repr

/-- One call through the `lru_cache` wrapper. -/
def lruCall (f : String × Nat → List ℚ) (c : EmbedCache) (k : String × Nat) :
    List ℚ × EmbedCache × Nat :=
  match c.entries.find? (fun x => decide (x.1 = k)) with
  | some e => (e.2, ⟨(k, e.2) :: c.entries.filter (fun x => !decide (x.1 = k))⟩, 0)
  | none =>
    let v := f k
    let es := (k, v) :: c.entries
    (v, ⟨if EMBEDDING_CACHE_SIZE < es.length then es.dropLast else es⟩, 1)

theorem length_filter_lt_of_mem {α : Type} (p : α → Bool) (l : List α) (a : α)
    (ha : a ∈ l) (hp : p a = false) : (l.filter p).length < l.length := by
  induction l with
  | nil => cases ha
  | cons b bs ih =>
    rw [List.filter_cons]
    rcases List.mem_cons.1 ha with rfl | ha
    · rw [hp]
      simp only [Bool.false_eq_true, if_false, List.length_cons]
      exact Nat.lt_succ_of_le (List.length_filter_le p bs)
    · by_cases hb : p b
      · simp only [hb, if_true, List.length_cons]
        exact Nat.succ_lt_succ (ih ha)
      · simp only [hb, Bool.false_eq_true, if_false, List.length_cons]
        exact Nat.lt_succ_of_lt (ih ha)

theorem lruCall_length (f : String × Nat → List ℚ) (c : EmbedCache) (k : String × Nat)
    (hcap : c.entries.length ≤ EMBEDDING_CACHE_SIZE) :
    (lruCall f c k).2.1.entries.length ≤ EMBEDDING_CACHE_SIZE := by
  rcases hf : c.entries.find? (fun x => decide (x.1 = k)) with _ | e
  · simp only [lruCall, hf]
    by_cases hlen : EMBEDDING_CACHE_SIZE < ((k, f k) :: c.entries).length
    · rw [if_pos hlen]
      rw [List.length_dropLast]
      simp only [List.length_cons]
      omega
    · rw [if_neg hlen]
      omega
  · have hmem := List.mem_of_find?_eq_some hf
    have hpe := List.find?_some hf
    simp only [decide_eq_true_eq] at hpe
    have hlt := length_filter_lt_of_mem (fun x => !decide (x.1 = k)) c.entries e hmem
      (by simp [hpe])
    simp only [lruCall, hf, List.length_cons]
    omega

/-- After any `lruCall` for key `k`, the most recent cache entry is `k`
bound to the value just returned. -/
theorem lruCall_head (f : String × Nat → List ℚ) (c : EmbedCache) (k : String × Nat) :
    ∃ t, (lruCall f c k).2.1.entries = (k, (lruCall f c k).1) :: t := by
  rcases hf : c.entries.find? (fun x => decide (x.1 = k)) with _ | e
  · simp only [lruCall, hf]
    by_cases hlen : EMBEDDING_CACHE_SIZE < ((k, f k) :: c.entries).length
    · rw [if_pos hlen]
      rcases hc : c.entries with _ | ⟨b, bs⟩
      · rw [hc] at hlen
        simp [EMBEDDING_CACHE_SIZE] at hlen
      · exact ⟨(b :: bs).dropLast, by simp⟩
    · rw [if_neg hlen]
      exact ⟨c.entries, rfl⟩
  · simp only [lruCall, hf]
    exact ⟨c.entries.filter (fun x => !decide (x.1 = k)), rfl⟩

/-- C7: the `lru_cache(maxsize=1000)` memoization of `get_embedding`, keyed
by the exact `(text, client)` pair: a first call issues at most one
underlying backend call, an immediately repeated call with the same key is
a cache hit — zero backend calls, same value returned — and the cache
never grows beyond the 1000-entry capacity (LRU eviction on overflow). -/
theorem embed_memoization_bounded (f : String × Nat → List ℚ) (c : EmbedCache)
    (k : String × Nat) (hcap : c.entries.length ≤ EMBEDDING_CACHE_SIZE) :
    (lruCall f c k).2.2 ≤ 1 ∧
    (lruCall f (lruCall f c k).2.1 k).2.2 = 0 ∧
    (lruCall f (lruCall f c k).2.1 k).1 = (lruCall f c k).1 ∧
    (lruCall f c k).2.1.entries.length ≤ EMBEDDING_CACHE_SIZE ∧
    (lruCall f (lruCall f c k).2.1 k).2.1.entries.length ≤ EMBEDDING_CACHE_SIZE := by
  have hn1 : (lruCall f c k).2.2 ≤ 1 := by
    rcases hf : c.entries.find? (fun x => decide (x.1 = k)) with _ | e <;>
      simp [lruCall, hf]
  have hlen1 := lruCall_length f c k hcap
  obtain ⟨t, ht⟩ := lruCall_head f c k
  have hfind2 : (lruCall f c k).2.1.entries.find? (fun x => decide (x.1 = k)) =
      some (k, (lruCall f c k).1) := by
    rw [ht]
    simp [List.find?]
  have h2 : lruCall f (lruCall f c k).2.1 k =
      ((lruCall f c k).1,
        ⟨(k, (lruCall f c k).1) ::
          (lruCall f c k).2.1.entries.filter (fun x => !decide (x.1 = k))⟩, 0) := by
    rw [lruCall.eq_def, hfind2]
  have hlt := length_filter_lt_of_mem (fun x => !decide (x.1 = k))
    (lruCall f c k).2.1.entries (k, (lruCall f c k).1)
    (List.mem_of_find?_eq_some hfind2) (by simp)
  refine ⟨hn1, ?_, ?_, hlen1, ?_⟩
  · rw [h2]
  · rw [h2]
  · rw [h2]
    simp only [List.length_cons]
    omega

/-- A constant underlying embedding function, for the witness. -/
def embedConst : String × Nat → List ℚ := fun _ => [1, 0, 2]

theorem embed_memoization_bounded_applied :
    (lruCall embedConst ⟨[]⟩ ("medical", 7)).2.2 ≤ 1 ∧
    (lruCall embedConst (lruCall embedConst ⟨[]⟩ ("medical", 7)).2.1 ("medical", 7)).2.2 = 0 ∧
    (lruCall embedConst (lruCall embedConst ⟨[]⟩ ("medical", 7)).2.1 ("medical", 7)).1 =
      (lruCall embedConst ⟨[]⟩ ("medical", 7)).1 ∧
    (lruCall embedConst ⟨[]⟩ ("medical", 7)).2.1.entries.length ≤ EMBEDDING_CACHE_SIZE ∧
    (lruCall embedConst (lruCall embedConst ⟨[]⟩ ("medical", 7)).2.1
      ("medical", 7)).2.1.entries.length ≤ EMBEDDING_CACHE_SIZE :=
  embed_memoization_bounded embedConst ⟨[]⟩ ("medical", 7) (by decide)

/-! ## `DocumentCache` — the TTL cache

`time.time()` is passed in explicitly as `now` (timestamps in seconds,
modelled as `ℤ`).  The Python `dict` is modelled as an association list:
`assocFind` is `self.cache[key]`, `assocErase` is `del self.cache[key]`,
and assignment is erase-then-cons (dict insertion order is never observed
by this class). -/

/-- `CACHE_TTL = 3600  # 1 hour in seconds`. -/
def CACHE_TTL : ℤ := 3600

def assocFind (l : List (String × (ℤ × String))) (k : String) : Option (ℤ × String) :=
  (l.find? (fun e => decide (e.1 = k))).map (fun e => e.2)

def assocErase (l : List (String × (ℤ × String))) (k : String) :
    List (String × (ℤ × String)) :=
  l.filter (fun e => !decide (e.1 = k))

/-- `DocumentCache.__init__(self, ttl=CACHE_TTL)`: `self.cache` starts empty
and maps a key to the `(timestamp, value)` pair. -/
structure DocumentCache where
  cache : List (String × (ℤ × String))
  ttl : ℤ
deriving DecidableEq, Repr

/-- `DocumentCache.get`: if the key is present and
`time.time() - timestamp < self.ttl`, return the value; if present but
stale, delete the entry and return `None`; otherwise return `None`.  The
second component is the cache state after the call. -/
def DocumentCache.get (dc : DocumentCache) (now : ℤ) (key : String) :
    Option String × DocumentCache :=
  match assocFind dc.cache key with
  | some (ts, v) =>
    if now - ts < dc.ttl then (some v, dc)
    else (none, ⟨assocErase dc.cache key, dc.ttl⟩)
  | none => (none, dc)

/-- `DocumentCache.set`: `self.cache[key] = (time.time(), value)`. -/
def DocumentCache.set (dc : DocumentCache) (now : ℤ) (key : String) (value : String) :
    DocumentCache :=
  ⟨(key, (now, value)) :: assocErase dc.cache key, dc.ttl⟩

theorem assocFind_erase (l : List (String × (ℤ × String))) (k : String) :
    assocFind (assocErase l k) k = none := by
  induction l with
  | nil => rfl
  | cons e es ih =>
    by_cases h : e.1 = k
    · simp only [assocErase, List.filter_cons, h, decide_True, Bool.not_true,
        Bool.false_eq_true, if_false]
      exact ih
    · simpa [assocErase, assocFind, List.filter_cons, List.find?_cons, h] using ih

/-- C8: lazy TTL expiry of `DocumentCache`.  After `set` at time `t0`, a
`get` at a time `t1` with `t1 - t0 ≥ ttl` returns absent and removes the
entry, so a later `get` (at any time `t3`) still returns absent; a `get` at
a time `t2` strictly within the ttl window returns the stored value. -/
theorem document_cache_ttl_expiry (dc : DocumentCache) (t0 t1 t2 t3 : ℤ)
    (key value : String)
    (hexp : t1 - t0 ≥ dc.ttl) (hlo : 0 ≤ t2 - t0) (hhi : t2 - t0 < dc.ttl) :
    ((dc.set t0 key value).get t1 key).1 = none ∧
    ((((dc.set t0 key value).get t1 key).2).get t3 key).1 = none ∧
    ((dc.set t0 key value).get t2 key).1 = some value := by
  have hfind : assocFind (dc.set t0 key value).cache key = some (t0, value) := by
    simp [DocumentCache.set, assocFind, List.find?_cons]
  have hnot : ¬ (t1 - t0 < dc.ttl) := not_lt.2 hexp
  have httl : (dc.set t0 key value).ttl = dc.ttl := rfl
  have h1 : (dc.set t0 key value).get t1 key =
      (none, ⟨assocErase (dc.set t0 key value).cache key, dc.ttl⟩) := by
    simp only [DocumentCache.get, hfind, httl, if_neg hnot]
  refine ⟨by rw [h1], ?_, ?_⟩
  · rw [h1]
    simp only [DocumentCache.get, assocFind_erase]
  · simp only [DocumentCache.get, hfind, httl, if_pos hhi]

theorem document_cache_ttl_expiry_applied :
    ((DocumentCache.mk [] CACHE_TTL).set 0 "page" "content" |>.get 3600 "page").1 = none ∧
    ((((DocumentCache.mk [] CACHE_TTL).set 0 "page" "content" |>.get 3600 "page").2).get
      5000 "page").1 = none ∧
    ((DocumentCache.mk [] CACHE_TTL).set 0 "page" "content" |>.get 10 "page").1 =
      some "content" :=
  document_cache_ttl_expiry (DocumentCache.mk [] CACHE_TTL) 0 3600 10 5000
    "page" "content" (by decide) (by decide) (by decide)

/-! ## `list_airtable_resources` — the resource catalog ranker

The `fields` dict of a fetched Airtable record, restricted to the keys the code
reads.  A missing key is `none`; present values are modelled after their
`str(...)` conversion where the code applies one (the four filter fields). -/

structure AirFields where
  Title : Option String
  Description : Option String
  Topics : Option String
  Theme : Option String
  Author : Option String
  LinkToResource : Option String
  TypeOfResource : Option String
  AccessType : Option String
  ECR_Relevance_Score : Option ℚ
  Development_Stage : Option String
  Estimated_Time : Option String
  Complexity_Level : Option String
  Prerequisites : Option (List String)
  Key_Learnings : Option (List String)
  Common_Pitfalls : Option (List String)
deriving DecidableEq, Repr

/-- The `ecr_metadata` dict the code builds, with its defaults applied. -/
structure EcrMeta where
  relevance_score : ℚ
  development_stage : String
  estimated_time : String
  complexity_level : String
  prerequisites : List String
  key_learnings : List String
  common_pitfalls : List String
deriving DecidableEq, Repr

/-- The formatted `resource` dict. -/
structure Resource where
  title : String
  author : String
  description : String
  link : String
  rtype : String
  access_type : String
  ecr_metadata : EcrMeta
deriving DecidableEq, Repr

/-- The Python substring containment test `needle in hay`. -/
def substrOf (needle hay : String) : Bool := decide (List.IsInfix needle.toList hay.toList)

/-- The four-field filter of the code: lowercased `filter_value` is a
substring of the lowercased `Title`, `Description`, `Topics` or `Theme`
field (each defaulting to `""`). -/
def recordMatches (filter_value : String) (fields : AirFields) : Bool :=
  let fv := filter_value.toLower
  substrOf fv (fields.Title.getD "").toLower ||
  substrOf fv (fields.Description.getD "").toLower ||
  substrOf fv (fields.Topics.getD "").toLower ||
  substrOf fv (fields.Theme.getD "").toLower

/-- `if filter_value:` — Python truthiness: `None` and `""` skip the
filter; otherwise a record is kept iff some of the four fields matches. -/
def keepRecord (filter_value : Option String) (fields : AirFields) : Bool :=
  match filter_value with
  | none => true
  | some fv => if fv = "" then true else recordMatches fv fields

/-- The record formatting, with the documented defaults of the code for missing
fields. -/
def formatRecord (fields : AirFields) : Resource :=
  { title := fields.Title.getD "Untitled"
    author := fields.Author.getD "Unknown"
    description := fields.Description.getD "No description available"
    link := fields.LinkToResource.getD ""
    rtype := fields.TypeOfResource.getD "Unknown"
    access_type := fields.AccessType.getD "Unknown"
    ecr_metadata :=
      { relevance_score := fields.ECR_Relevance_Score.getD 3
        development_stage := fields.Development_Stage.getD "all"
        estimated_time := fields.Estimated_Time.getD "unknown"
        complexity_level := fields.Complexity_Level.getD "medium"
        prerequisites := fields.Prerequisites.getD []
        key_learnings := fields.Key_Learnings.getD []
        common_pitfalls := fields.Common_Pitfalls.getD [] } }

/-- `list_airtable_resources` at the level of the formatted record list:
filter (when a filter value is given), format with defaults, then
`formatted_resources.sort(key=lambda x: x[ecr_metadata][relevance_score],
reverse=True)` — a stable descending sort.  The final markdown rendering of
this list is presentation only. -/
def list_airtable_resources (records : List AirFields) (filter_value : Option String) :
    List Resource :=
  sortDesc (fun r => r.ecr_metadata.relevance_score)
    ((records.filter (keepRecord filter_value)).map formatRecord)

/-- C9: with a non-empty `filter_value`, the output consists of exactly the
records with a case-insensitive substring match in Title, Description,
Topics or Theme (a permutation of the filtered, default-formatted catalog
slice), ordered descending by `ecr_metadata.relevance_score` (missing score
defaults to 3 via `formatRecord`), and for every score level `s` the
equal-score records keep their original catalog order (stability). -/
theorem airtable_filter_and_rank (records : List AirFields) (fv : String) (s : ℚ)
    (hfv : fv ≠ "") :
    List.Perm (list_airtable_resources records (some fv))
      ((records.filter (recordMatches fv)).map formatRecord) ∧
    (list_airtable_resources records (some fv)).Pairwise
      (fun a b => b.ecr_metadata.relevance_score ≤ a.ecr_metadata.relevance_score) ∧
    (list_airtable_resources records (some fv)).filter
        (fun r => decide (r.ecr_metadata.relevance_score = s)) =
      ((records.filter (recordMatches fv)).map formatRecord).filter
        (fun r => decide (r.ecr_metadata.relevance_score = s)) := by
  have hfilter : records.filter (keepRecord (some fv)) = records.filter (recordMatches fv) :=
    List.filter_congr (fun x _ => by simp [keepRecord, hfv])
  unfold list_airtable_resources
  rw [hfilter]
  exact ⟨sortDesc_perm _ _, sortDesc_pairwise _ _, sortDesc_filter_stable _ _ _⟩

/-- Witness record: matches "usability" only through its `Theme` field. -/
def airRec1 : AirFields :=
  ⟨some "First study", some "A device trial", none, some "Usability", none, none,
    none, none, some 5, none, none, none, none, none, none⟩

/-- Witness record: matches "usability" through `Topics`; same score as
`airRec1` to exercise stability. -/
def airRec2 : AirFields :=
  ⟨some "Second study", none, some "usability testing", none, none, none,
    none, none, some 5, none, none, none, none, none, none⟩

/-- Witness record: does not match "usability". -/
def airRec3 : AirFields :=
  ⟨some "Hardware guide", some "Circuits", some "hardware", some "Developing hardware",
    none, none, none, none, some 4, none, none, none, none, none, none⟩

theorem airtable_filter_and_rank_applied :
    List.Perm (list_airtable_resources [airRec1, airRec2, airRec3] (some "usability"))
      ((([airRec1, airRec2, airRec3].filter (recordMatches "usability"))).map formatRecord) ∧
    (list_airtable_resources [airRec1, airRec2, airRec3] (some "usability")).Pairwise
      (fun a b => b.ecr_metadata.relevance_score ≤ a.ecr_metadata.relevance_score) ∧
    (list_airtable_resources [airRec1, airRec2, airRec3] (some "usability")).filter
        (fun r => decide (r.ecr_metadata.relevance_score = 5)) =
      (([airRec1, airRec2, airRec3].filter (recordMatches "usability")).map
        formatRecord).filter (fun r => decide (r.ecr_metadata.relevance_score = 5)) :=
  airtable_filter_and_rank [airRec1, airRec2, airRec3] "usability" 5 (by decide)
